import Mathlib

/-!
Shallow embedding of `main.go` of msageha/prompt_generator.

Go strings are byte sequences, so file bytes and decoded file contents are
modelled as `List Nat` (each element one byte value).  The character
decoders from golang.org/x/text and the gitignore matcher from go-git are
external collaborators of this repository and are abstracted as function
parameters; everything else is translated directly from `main.go`.
-/

/-- The six encodings `getEncodingByName` and the auto-detection loop can
name.  The actual `encoding.Encoding` values live in golang.org/x/text,
outside this repository. -/
inductive GoEncoding where
  | shiftJIS | eucJP | iso2022JP | utf16LE | utf16BE | utf8
deriving DecidableEq

/-- Models `enc.NewDecoder().Bytes(data)` for each nameable encoding:
`some out` when the decoder returns `err == nil` with output bytes `out`,
`none` when it returns an error.  The decoders are external library code
(golang.org/x/text), so they are abstracted as a parameter of the
embedding. -/
def DecEnv : Type := GoEncoding → List Nat → Option (List Nat)

/-- Second byte constraints of a multi-byte UTF-8 sequence, after the
leading byte `b` (Go `unicode/utf8` accept ranges). -/
def utf8SecondByteOK (b b1 : Nat) : Bool :=
  if b = 0xE0 then 0xA0 ≤ b1 && b1 ≤ 0xBF
  else if b = 0xED then 0x80 ≤ b1 && b1 ≤ 0x9F
  else if b = 0xF0 then 0x90 ≤ b1 && b1 ≤ 0xBF
  else if b = 0xF4 then 0x80 ≤ b1 && b1 ≤ 0x8F
  else 0x80 ≤ b1 && b1 ≤ 0xBF

/-- A UTF-8 continuation byte (0x80–0xBF). -/
def utf8Cont (b : Nat) : Bool := 0x80 ≤ b && b ≤ 0xBF

/-- Models Go `utf8.Valid(data)`: `data` is a well-formed UTF-8 byte
sequence (no overlong forms, no surrogates, max U+10FFFF). -/
def utf8Valid : List Nat → Bool
  | [] => true
  | b :: rest =>
    if b < 0x80 then utf8Valid rest
    else if 0xC2 ≤ b && b ≤ 0xDF then
      match rest with
      | b1 :: rest2 => utf8Cont b1 && utf8Valid rest2
      | [] => false
    else if 0xE0 ≤ b && b ≤ 0xEF then
      match rest with
      | b1 :: b2 :: rest3 => utf8SecondByteOK b b1 && utf8Cont b2 && utf8Valid rest3
      | _ => false
    else if 0xF0 ≤ b && b ≤ 0xF4 then
      match rest with
      | b1 :: b2 :: b3 :: rest4 =>
        utf8SecondByteOK b b1 && utf8Cont b2 && utf8Cont b3 && utf8Valid rest4
      | _ => false
    else false

/-- Per-character lowering of Go `unicode.ToLower` (the simple case
mapping), restricted to the mappings whose output is ASCII: the ASCII
uppercase letters, U+0130 (`İ`, simple lowercase `i`) and U+212A (the
Kelvin sign, simple lowercase `k`).  Go also lowers other uppercase
characters, but never into the ASCII range. -/
def goToLowerChar (c : Char) : Char :=
  if c.toNat = 0x130 then 'i'
  else if c.toNat = 0x212A then 'k'
  else Char.toLower c

/-- Models Go `strings.ToLower` (`unicode.ToLower` on every rune).  The
embedding lowers exactly the characters whose Go lowercase is ASCII, so
it can differ from Go on characters Go lowers within the non-ASCII range;
since `getEncodingByName` only compares the lowered name against the
pure-ASCII aliases below, that comparison — the one place the program
uses the lowered string — agrees with Go for every input name. -/
def stringToLower (s : String) : String := String.mk (s.data.map goToLowerChar)

/-- The encoding names accepted by `getEncodingByName`, in switch-case
order. -/
def encodingAliases : List String :=
  ["shift-jis", "shiftjis", "sjis", "euc-jp", "eucjp",
   "iso-2022-jp", "iso2022jp", "utf-16le", "utf-16be", "utf-8", "utf8"]

/-- Function `getEncodingByName` of main.go: maps a (case-insensitive) encoding
name to an encoding, or fails for an unsupported name. -/
def getEncodingByName (name : String) : Option GoEncoding :=
  let n := stringToLower name
  if n = "shift-jis" ∨ n = "shiftjis" ∨ n = "sjis" then some GoEncoding.shiftJIS
  else if n = "euc-jp" ∨ n = "eucjp" then some GoEncoding.eucJP
  else if n = "iso-2022-jp" ∨ n = "iso2022jp" then some GoEncoding.iso2022JP
  else if n = "utf-16le" then some GoEncoding.utf16LE
  else if n = "utf-16be" then some GoEncoding.utf16BE
  else if n = "utf-8" ∨ n = "utf8" then some GoEncoding.utf8
  else none

/-- The two error shapes `detectAndConvertEncoding` can return (the Go
code returns formatted Japanese messages; only their identity and the
embedded name matter here). -/
inductive EncError where
  | unsupported (name : String)
  | decodeFailure (name : String)
deriving DecidableEq

deriving instance DecidableEq for Except

/-- The fallback candidate list `encodings` of `detectAndConvertEncoding`,
in source order. -/
def encodings : List GoEncoding :=
  [GoEncoding.shiftJIS, GoEncoding.eucJP, GoEncoding.iso2022JP,
   GoEncoding.utf16LE, GoEncoding.utf16BE]

/-- The `for _, enc := range encodings` loop of `detectAndConvertEncoding`:
return the first decode result that has no error and is valid UTF-8. -/
def tryEncodings (denv : DecEnv) (data : List Nat) : List GoEncoding → Option (List Nat)
  | [] => none
  | e :: rest =>
    match denv e data with
    | some result => if utf8Valid result then some result else tryEncodings denv data rest
    | none => tryEncodings denv data rest

/-- Function `detectAndConvertEncoding` of main.go: explicit-name mode forces the
named decoder; auto mode returns valid UTF-8 unchanged, then trial-decodes
the fallback list, and as a last resort returns the bytes as-is with a
warning. -/
def detectAndConvertEncoding (denv : DecEnv) (data : List Nat) (encodingName : String) :
    Except EncError (List Nat) :=
  if encodingName ≠ "" then
    match getEncodingByName encodingName with
    | none => Except.error (EncError.unsupported encodingName)
    | some enc =>
      match denv enc data with
      | none => Except.error (EncError.decodeFailure encodingName)
      | some result => Except.ok result
  else
    if utf8Valid data then Except.ok data
    else
      match tryEncodings denv data encodings with
      | some result => Except.ok result
      | none => Except.ok data

example : utf8Valid [97, 98] = true := by decide
example : utf8Valid [227, 129, 130] = true := by decide
example : utf8Valid [255] = false := by decide
example : utf8Valid [0xC0, 0x80] = false := by decide
example : utf8Valid [0xED, 0xA0, 0x80] = false := by decide
example : utf8Valid [0xF4, 0x8F, 0xBF, 0xBF] = true := by decide
example : getEncodingByName "SJIS" = some GoEncoding.shiftJIS := by decide
example : stringToLower "SJİS" = "sjis" := by decide
example : getEncodingByName "SJİS" = some GoEncoding.shiftJIS := by decide
example : getEncodingByName "Shift-JİS" = some GoEncoding.shiftJIS := by decide
example : getEncodingByName "Shift-JIS" = some GoEncoding.shiftJIS := by decide
example : getEncodingByName "latin1" = none := by decide
example : detectAndConvertEncoding (fun _ _ => none) [97] "" = Except.ok [97] := by decide
example : detectAndConvertEncoding (fun _ _ => none) [255] "" = Except.ok [255] := by decide
example : detectAndConvertEncoding (fun _ _ => some [97]) [255] "" = Except.ok [97] := by decide
example : detectAndConvertEncoding (fun _ _ => none) [97] "sjis" =
    Except.error (EncError.decodeFailure "sjis") := by decide
example : detectAndConvertEncoding (fun _ _ => none) [97] "bogus" =
    Except.error (EncError.unsupported "bogus") := by decide

/-- Predicate `charsHasPre cs ps`: the character list `ps` is an initial segment of
`cs`. -/
def charsHasPre : List Char → List Char → Bool
  | _, [] => true
  | [], _ :: _ => false
  | c :: cs, p :: ps => c = p && charsHasPre cs ps

/-- Models Go `strings.HasPrefix(s, pre)` (the built-in `String.startsWith`
does not reduce inside the kernel, so the check is spelled out on the
character list). -/
def strHasPre (s pre : String) : Bool := charsHasPre s.data pre.data

example : strHasPre ".git" "." = true := by decide
example : strHasPre "a.py" "." = false := by decide

/-- Models Go `filepath.Ext(path)`: the suffix beginning at the final dot
in the final slash-separated element of `path`, or `""` if there is none.
Implemented by scanning the characters of `path` from the end. -/
def goExtRev : List Char → List Char → String
  | [], _ => ""
  | c :: rest, acc =>
    if c = '/' then ""
    else if c = '.' then String.mk (c :: acc)
    else goExtRev rest (c :: acc)

/-- Go `filepath.Ext`. -/
def goExt (path : String) : String := goExtRev path.data.reverse []

/-- Models the go-git `gitignore.Matcher.Match(pathSegments, isDir)`: the
matcher is external library code, abstracted as a function from the
relative path segments and the is-directory flag to the exclusion
verdict. -/
def GitignoreMatcher : Type := List String → Bool → Bool

/-- The expression `matcher != nil && matcher.Match(strings.Split(relPath,
os.PathSeparator), info.IsDir())` of `collectFilesContent`: a missing
matcher (`nil`, i.e. no `.gitignore`) never excludes anything. -/
def matcherMatch (matcher : Option GitignoreMatcher) (segs : List String) (isDir : Bool) : Bool :=
  match matcher with
  | none => false
  | some m => m segs isDir

/-- The extension filter of `collectFilesContent`: if `targetExtensions`
contains the sentinel `"."` every file passes, otherwise
`filepath.Ext(path)` must be a member of `targetExtensions`. -/
def extAllowed (targetExtensions : List String) (path : String) : Bool :=
  if targetExtensions.contains "." then true
  else targetExtensions.contains (goExt path)

/-- A node of the scanned directory tree, as `filepath.Walk` presents it:
`info.Name()` (for the root, `filepath.Base` of the walked path), plus for
a regular file the bytes `os.ReadFile` returns, and for a directory its
child entries. -/
inductive FSEntry where
  | file (name : String) (data : List Nat)
  | dir (name : String) (children : List FSEntry)

/-- The `info.Name()` of an entry. -/
def FSEntry.name : FSEntry → String
  | .file n _ => n
  | .dir n _ => n

/-- The non-root arguments of `collectFilesContent` of main.go, bundled:
the extension list, the optional `.gitignore` matcher and the explicit
encoding name (empty string for auto-detection). -/
structure Config where
  targetExtensions : List String
  matcher : Option GitignoreMatcher
  encodingName : String

/-- The relative path segments handed to the matcher:
`filepath.Rel(absInputPath, path)` split at the path separator.  `segs` is
the segment list of the entry below the root; for the root itself `Rel`
yields `"."`. -/
def relSegs (segs : List String) : List String :=
  if segs = [] then ["."] else segs

mutual

/-- The body of the `filepath.Walk` callback of `collectFilesContent`,
applied to one visited entry and, through `collectChildren`, to the
subtree below it.  `path` is the absolute path of the entry and `segs`
its root-relative segment list (`[]` for the root itself).  Returning
`[]` for a whole directory models `filepath.SkipDir`; the Go map insertion
`filesContent[path] = content` becomes emitting the pair `(path,
content)` (each visited path is distinct, so the association list is the
map). -/
def collectEntry (cfg : Config) (denv : DecEnv) (e : FSEntry) (path : String)
    (segs : List String) : List (String × List Nat) :=
  match e with
  | .file name data =>
    if strHasPre name "." && name != ".gitignore" then []
    else if matcherMatch cfg.matcher (relSegs segs) false then []
    else if !extAllowed cfg.targetExtensions path then []
    else
      match detectAndConvertEncoding denv data cfg.encodingName with
      | Except.ok content => [(path, content)]
      | Except.error _ => []
  | .dir name children =>
    if strHasPre name "." then []
    else if matcherMatch cfg.matcher (relSegs segs) true then []
    else collectChildren cfg denv children path segs
termination_by structural e

/-- Models `filepath.Walk` descending into the children of a directory that the
callback did not skip. -/
def collectChildren (cfg : Config) (denv : DecEnv) (cs : List FSEntry) (path : String)
    (segs : List String) : List (String × List Nat) :=
  match cs with
  | [] => []
  | c :: rest =>
    collectEntry cfg denv c (path ++ "/" ++ c.name) (segs ++ [c.name]) ++
      collectChildren cfg denv rest path segs
termination_by structural cs

end

/-- Function `collectFilesContent` of main.go: walk the tree rooted at
`absInputPath` (whose `filepath.Walk` entry is `root`) and accumulate the
path-to-content map. -/
def collectFilesContent (cfg : Config) (denv : DecEnv) (absInputPath : String)
    (root : FSEntry) : List (String × List Nat) :=
  collectEntry cfg denv root absInputPath []

example : goExt "/r/a.py" = ".py" := by decide
example : goExt "/r/.gitignore" = ".gitignore" := by decide
example : goExt "/r.d/file" = "" := by decide
example :
    collectFilesContent ⟨[".py"], none, ""⟩ (fun _ _ => none) "/r"
      (FSEntry.dir "r" [FSEntry.file "a.py" [97], FSEntry.file "b.txt" [98],
        FSEntry.dir ".git" [FSEntry.file "c.py" [99]]]) =
      [("/r/a.py", [97])] := by decide
example :
    collectFilesContent ⟨["."], none, ""⟩ (fun _ _ => none) "/r"
      (FSEntry.dir "r" [FSEntry.file ".gitignore" [97]]) =
      [("/r/.gitignore", [97])] := by decide
example :
    collectFilesContent ⟨[".py"], none, ""⟩ (fun _ _ => none) "/r"
      (FSEntry.dir ".hidden" [FSEntry.file "a.py" [97]]) = [] := by decide
example :
    collectFilesContent ⟨[".py"], some (fun segs _ => segs.contains "build"), ""⟩
      (fun _ _ => none) "/r"
      (FSEntry.dir "r" [FSEntry.dir "build" [FSEntry.file "out.py" [97]],
        FSEntry.dir "src" [FSEntry.file "main.py" [98]]]) =
      [("/r/src/main.py", [98])] := by decide

/-- One per-file fenced block of `createPrompt`: the `----------` fence,
the `[File]:` header, the content between `[Content Start]` and
`[Content End]`, and the trailing blank line. -/
def promptFileBlock (pc : String × String) : String :=
  "----------\n[File]: " ++ pc.1 ++ "\n[Content Start]\n" ++ pc.2 ++ "\n[Content End]\n\n"

/-- Function `createPrompt` of main.go.  The Go `for path, content := range
filesContent` iterates the map in an order the language does not specify,
so the map is passed here together with its iteration order, as the list
of key/value pairs in the order the loop visits them. -/
def createPrompt (filesContent : List (String × String)) (instructions : String) : String :=
  "以下は対象リポジトリのすべてのファイル内容です。\n" ++
    "これらを参考に、後述の指示に従ってリポジトリを変更してください。\n\n" ++
    (filesContent.foldl (fun acc pc => acc ++ promptFileBlock pc) "") ++
    "----------\n以下が指示文です:\n" ++ instructions

/-- The observable outcome of the steps of `main` after
`collectFilesContent` returns: either the process terminates on stderr
with an exit code, or the assembled prompt is printed on stdout. -/
inductive RunOutcome where
  | fatal (stderrLine : String) (exitCode : Nat)
  | printed (prompt : String)
deriving DecidableEq

/-- Function `exitWithError` of main.go: print `エラー: <message>` to stderr and
exit with status 1. -/
def exitWithError (message : String) : RunOutcome :=
  RunOutcome.fatal ("エラー: " ++ message) 1

/-- A Go string is a byte sequence; `goString` is the byte-transparent
(injective) view of the collected content bytes used to hand the map to
the prompt-assembly model.  Only the keys and the number of entries
matter to the theorems that use it. -/
def goString (bs : List Nat) : String := String.mk (bs.map Char.ofNat)

/-- The collected map, as the `map[string]string` value `main` passes on. -/
def goStringMap (m : List (String × List Nat)) : List (String × String) :=
  m.map (fun kv => (kv.1, goString kv.2))

/-- The tail of `main` of main.go, from the `len(filesContent) == 0` check
onwards: abort fatally on an empty map, otherwise read the instructions
and print `createPrompt(filesContent, instructions)`. -/
def mainAfterCollect (filesContent : List (String × String)) (instructions : String) :
    RunOutcome :=
  if filesContent.length = 0 then exitWithError "有効なファイルが見つかりませんでした"
  else RunOutcome.printed (createPrompt filesContent instructions)

example :
    mainAfterCollect [] "x" = RunOutcome.fatal "エラー: 有効なファイルが見つかりませんでした" 1 := by
  decide

/-- Relation `FileAt e path segs n d key fsegs anc`: inside the tree entry `e`
(visited at absolute path `path` with root-relative segment list `segs`)
there is a regular file named `n` holding bytes `d`, visited at absolute
path `key` with root-relative segments `fsegs`; `anc` records, outermost
first, the name and root-relative segments of every directory the walk
passes through on the way, `e` itself included when it is a directory. -/
inductive FileAt : FSEntry → String → List String → String → List Nat → String →
    List String → List (String × List String) → Prop where
  | file (n : String) (d : List Nat) (path : String) (segs : List String) :
      FileAt (FSEntry.file n d) path segs n d path segs []
  | dir (dn : String) (children : List FSEntry) (path : String) (segs : List String)
      (c : FSEntry) (n : String) (d : List Nat) (key : String) (fsegs : List String)
      (anc : List (String × List String)) (hc : c ∈ children)
      (h : FileAt c (path ++ "/" ++ c.name) (segs ++ [c.name]) n d key fsegs anc) :
      FileAt (FSEntry.dir dn children) path segs n d key fsegs ((dn, segs) :: anc)

/-- Everything the walk checked before it stored `(key, content)`: the
entry is a regular file of the tree, it is not hidden (the `.gitignore`
exception aside), the matcher does not exclude it, it passes the
extension filter, its bytes decoded successfully, and every directory on
the way to it is neither hidden nor matcher-excluded. -/
def collectedEntrySpec (cfg : Config) (denv : DecEnv) (e : FSEntry) (path : String)
    (segs : List String) (key : String) (content : List Nat) : Prop :=
  ∃ n d fsegs anc, FileAt e path segs n d key fsegs anc ∧
    (strHasPre n "." = true → n = ".gitignore") ∧
    matcherMatch cfg.matcher (relSegs fsegs) false = false ∧
    extAllowed cfg.targetExtensions key = true ∧
    detectAndConvertEncoding denv d cfg.encodingName = Except.ok content ∧
    (∀ a ∈ anc, strHasPre a.1 "." = false ∧ matcherMatch cfg.matcher (relSegs a.2) true = false)

/-- A pair collected below a directory comes from one of its children. -/
theorem collectChildren_mem (cfg : Config) (denv : DecEnv) :
    ∀ (cs : List FSEntry) (path : String) (segs : List String) (key : String)
      (content : List Nat),
      (key, content) ∈ collectChildren cfg denv cs path segs →
      ∃ c, c ∈ cs ∧
        (key, content) ∈ collectEntry cfg denv c (path ++ "/" ++ c.name) (segs ++ [c.name]) := by
  intro cs
  induction cs with
  | nil => intro path segs key content h; simp [collectChildren] at h
  | cons c rest ih =>
    intro path segs key content h
    rw [collectChildren] at h
    rcases List.mem_append.mp h with h1 | h2
    · exact ⟨c, List.mem_cons_self c rest, h1⟩
    · obtain ⟨c2, hc2, hm⟩ := ih path segs key content h2
      exact ⟨c2, List.mem_cons_of_mem c hc2, hm⟩


/-- Master lemma, by strong induction on the size of the entry: every
pair the walk stores satisfies `collectedEntrySpec`. -/
theorem collectEntry_spec_aux (cfg : Config) (denv : DecEnv) :
    ∀ (N : Nat) (e : FSEntry), sizeOf e ≤ N →
      ∀ (path : String) (segs : List String) (key : String) (content : List Nat),
        (key, content) ∈ collectEntry cfg denv e path segs →
        collectedEntrySpec cfg denv e path segs key content := by
  intro N
  induction N with
  | zero =>
    intro e he
    cases e <;> simp only [FSEntry.file.sizeOf_spec, FSEntry.dir.sizeOf_spec] at he <;> omega
  | succ N ih =>
    intro e he path segs key content h
    cases e with
    | file n d =>
      rw [collectEntry] at h
      split_ifs at h with h1 h2 h3
      · simp at h
      · simp at h
      · simp at h
      · split at h
        next cval heq =>
          simp only [List.mem_singleton, Prod.mk.injEq] at h
          obtain ⟨rfl, rfl⟩ := h
          have hhid : strHasPre n "." = true → n = ".gitignore" := by
            intro hs
            by_contra hne
            exact h1 (by simp [hs, hne])
          have hmat : matcherMatch cfg.matcher (relSegs segs) false = false := by
            cases hb : matcherMatch cfg.matcher (relSegs segs) false with
            | false => rfl
            | true => exact absurd hb h2
          have hext : extAllowed cfg.targetExtensions key = true := by
            cases hb : extAllowed cfg.targetExtensions key with
            | true => rfl
            | false => exact absurd (by simp [hb]) h3
          exact ⟨n, d, segs, [], FileAt.file n d key segs, hhid, hmat, hext, heq,
            by intro a ha; simp at ha⟩
        next heq => simp at h
    | dir dn children =>
      rw [collectEntry] at h
      split_ifs at h with h1 h2
      · simp at h
      · simp at h
      · have hh : strHasPre dn "." = false := by
          cases hb : strHasPre dn "." with
          | false => rfl
          | true => exact absurd hb h1
        have hm2 : matcherMatch cfg.matcher (relSegs segs) true = false := by
          cases hb : matcherMatch cfg.matcher (relSegs segs) true with
          | false => rfl
          | true => exact absurd hb h2
        obtain ⟨c, hc, hm⟩ := collectChildren_mem cfg denv children path segs key content h
        have hsz : sizeOf c ≤ N := by
          have hlt := List.sizeOf_lt_of_mem hc
          simp only [FSEntry.dir.sizeOf_spec] at he
          omega
        obtain ⟨n, d, fsegs, anc, hfa, hhid, hmat, hext, hdec, hanc⟩ :=
          ih c hsz (path ++ "/" ++ c.name) (segs ++ [c.name]) key content hm
        refine ⟨n, d, fsegs, (dn, segs) :: anc,
          FileAt.dir dn children path segs c n d key fsegs anc hc hfa,
          hhid, hmat, hext, hdec, ?_⟩
        intro a ha
        rcases List.mem_cons.mp ha with rfl | hmem
        · exact ⟨hh, hm2⟩
        · exact hanc a hmem

/-- Master lemma at the top of the walk. -/
theorem collectFilesContent_spec (cfg : Config) (denv : DecEnv) (absInputPath : String)
    (root : FSEntry) (key : String) (content : List Nat)
    (h : (key, content) ∈ collectFilesContent cfg denv absInputPath root) :
    collectedEntrySpec cfg denv root absInputPath [] key content :=
  collectEntry_spec_aux cfg denv (sizeOf root) root (Nat.le_refl _) absInputPath [] key content h

/-- If the fallback loop returns a result, some candidate decoded the
data to valid UTF-8, and no earlier candidate did. -/
theorem tryEncodings_eq_some (denv : DecEnv) (data : List Nat) :
    ∀ (l : List GoEncoding) (r : List Nat), tryEncodings denv data l = some r →
      ∃ i e, l.get? i = some e ∧ denv e data = some r ∧ utf8Valid r = true ∧
        ∀ j e2, j < i → l.get? j = some e2 →
          ∀ s, denv e2 data = some s → utf8Valid s = false := by
  intro l
  induction l with
  | nil => intro r h; simp [tryEncodings] at h
  | cons e rest ih =>
    intro r h
    rw [tryEncodings] at h
    split at h
    next res hd =>
      cases hv : utf8Valid res with
      | true =>
        rw [if_pos hv] at h
        obtain rfl : res = r := by injection h
        refine ⟨0, e, by simp, hd, hv, ?_⟩
        intro j e2 hj
        omega
      | false =>
        rw [if_neg (by simp [hv])] at h
        obtain ⟨i, e2, hget, hdd, hvv, hfirst⟩ := ih r h
        refine ⟨i + 1, e2, by simpa using hget, hdd, hvv, ?_⟩
        intro j e3 hj hget2 s hs
        cases j with
        | zero =>
          simp at hget2
          subst hget2
          rw [hd] at hs
          obtain rfl : res = s := by injection hs
          exact hv
        | succ j =>
          exact hfirst j e3 (by omega) (by simpa using hget2) s hs
    next hd =>
      obtain ⟨i, e2, hget, hdd, hvv, hfirst⟩ := ih r h
      refine ⟨i + 1, e2, by simpa using hget, hdd, hvv, ?_⟩
      intro j e3 hj hget2 s hs
      cases j with
      | zero =>
        simp at hget2
        subst hget2
        rw [hd] at hs
        exact absurd hs (by simp)
      | succ j =>
        exact hfirst j e3 (by omega) (by simpa using hget2) s hs

/-- If the fallback loop fails, no candidate decoded the data to valid
UTF-8. -/
theorem tryEncodings_eq_none (denv : DecEnv) (data : List Nat) :
    ∀ (l : List GoEncoding), tryEncodings denv data l = none →
      ∀ j e, l.get? j = some e → ∀ s, denv e data = some s → utf8Valid s = false := by
  intro l
  induction l with
  | nil => intro h j e hget; simp at hget
  | cons e rest ih =>
    intro h j e2 hget s hs
    rw [tryEncodings] at h
    split at h
    next res hd =>
      cases hv : utf8Valid res with
      | true => rw [if_pos hv] at h; exact absurd h (by simp)
      | false =>
        rw [if_neg (by simp [hv])] at h
        cases j with
        | zero =>
          simp at hget
          subst hget
          rw [hd] at hs
          obtain rfl : res = s := by injection hs
          exact hv
        | succ j => exact ih h j e2 (by simpa using hget) s hs
    next hd =>
      cases j with
      | zero =>
        simp at hget
        subst hget
        rw [hd] at hs
        exact absurd hs (by simp)
      | succ j => exact ih h j e2 (by simpa using hget) s hs

/-- Lemma: `getEncodingByName` succeeds exactly on the lower-cased alias list. -/
theorem getEncodingByName_isSome_iff (name : String) :
    (getEncodingByName name).isSome = true ↔ stringToLower name ∈ encodingAliases := by
  unfold getEncodingByName
  dsimp only
  split_ifs with h1 h2 h3 h4 h5 h6 <;> simp_all [encodingAliases] <;> tauto

/-- Lemma: `getEncodingByName` only looks at the lower-cased name. -/
theorem getEncodingByName_congr (name1 name2 : String)
    (h : stringToLower name1 = stringToLower name2) :
    getEncodingByName name1 = getEncodingByName name2 := by
  unfold getEncodingByName
  rw [h]

/-- C8: with an explicit encoding name, the resolver accepts exactly the
recognized aliases, case-insensitively; every other name yields the
unsupported-encoding error, and a rejected decode yields the
decode-failure error with no text. -/
theorem detect_explicit_spec (denv : DecEnv) (name : String) (data : List Nat)
    (h : name ≠ "") :
    ((getEncodingByName name).isSome = true ↔ stringToLower name ∈ encodingAliases) ∧
    (∀ name2, stringToLower name2 = stringToLower name →
      getEncodingByName name2 = getEncodingByName name) ∧
    (getEncodingByName name = none →
      detectAndConvertEncoding denv data name = Except.error (EncError.unsupported name)) ∧
    (∀ enc, getEncodingByName name = some enc → denv enc data = none →
      detectAndConvertEncoding denv data name = Except.error (EncError.decodeFailure name)) ∧
    (∀ enc r, getEncodingByName name = some enc → denv enc data = some r →
      detectAndConvertEncoding denv data name = Except.ok r) := by
  refine ⟨getEncodingByName_isSome_iff name, ?_, ?_, ?_, ?_⟩
  · intro name2 hlow
    exact getEncodingByName_congr name2 name hlow
  · intro hg
    simp [detectAndConvertEncoding, hg, h]
  · intro enc hg hd
    simp [detectAndConvertEncoding, hg, hd, h]
  · intro enc r hg hd
    simp [detectAndConvertEncoding, hg, hd, h]

/-- C8 witness: `"SJIS"` is accepted case-insensitively; a decoder
rejection surfaces as the decode-failure error. -/
theorem detect_explicit_spec_witness :
    ("SJIS" ≠ "") ∧
      (((getEncodingByName "SJIS").isSome = true ↔
            stringToLower "SJIS" ∈ encodingAliases) ∧
        (∀ name2, stringToLower name2 = stringToLower "SJIS" →
          getEncodingByName name2 = getEncodingByName "SJIS") ∧
        (getEncodingByName "SJIS" = none →
          detectAndConvertEncoding (fun _ _ => none) [0] "SJIS" =
            Except.error (EncError.unsupported "SJIS")) ∧
        (∀ enc, getEncodingByName "SJIS" = some enc →
          (fun (_ : GoEncoding) (_ : List Nat) => (none : Option (List Nat))) enc [0] = none →
          detectAndConvertEncoding (fun _ _ => none) [0] "SJIS" =
            Except.error (EncError.decodeFailure "SJIS")) ∧
        (∀ enc r, getEncodingByName "SJIS" = some enc →
          (fun (_ : GoEncoding) (_ : List Nat) => (none : Option (List Nat))) enc [0] = some r →
          detectAndConvertEncoding (fun _ _ => none) [0] "SJIS" = Except.ok r)) :=
  ⟨by decide, detect_explicit_spec (fun _ _ => none) "SJIS" [0] (by decide)⟩

/-- C7: in auto-detect mode, bytes that are already valid UTF-8 come back
exactly as they are, byte for byte. -/
theorem detect_utf8_unchanged (denv : DecEnv) (data : List Nat)
    (h : utf8Valid data = true) :
    detectAndConvertEncoding denv data "" = Except.ok data := by
  simp [detectAndConvertEncoding, h]

/-- C7 witness: the UTF-8 bytes of `あ` survive unchanged. -/
theorem detect_utf8_unchanged_witness :
    utf8Valid [227, 129, 130] = true ∧
      detectAndConvertEncoding (fun _ _ => none) [227, 129, 130] "" =
        Except.ok [227, 129, 130] :=
  ⟨by decide, detect_utf8_unchanged (fun _ _ => none) [227, 129, 130] (by decide)⟩

/-- C6: in auto-detect mode on non-UTF-8 input the resolver never fails:
it walks the fixed candidate list `encodings` (Shift-JIS, EUC-JP,
ISO-2022-JP, UTF-16LE with BOM, UTF-16BE with BOM, in that order) and
returns the first decode that succeeds and is valid UTF-8, or the
original bytes when no candidate qualifies. -/
theorem detect_auto_fallback (denv : DecEnv) (data : List Nat)
    (h : utf8Valid data = false) :
    ∃ r, detectAndConvertEncoding denv data "" = Except.ok r ∧
      ((∃ i e, encodings.get? i = some e ∧ denv e data = some r ∧ utf8Valid r = true ∧
          ∀ j e2, j < i → encodings.get? j = some e2 →
            ∀ s, denv e2 data = some s → utf8Valid s = false) ∨
        (r = data ∧ ∀ j e, encodings.get? j = some e →
          ∀ s, denv e data = some s → utf8Valid s = false)) := by
  have hform : detectAndConvertEncoding denv data "" =
      match tryEncodings denv data encodings with
      | some result => Except.ok result
      | none => Except.ok data := by
    simp [detectAndConvertEncoding, h]
  cases ht : tryEncodings denv data encodings with
  | some r =>
    refine ⟨r, ?_, Or.inl (tryEncodings_eq_some denv data encodings r ht)⟩
    rw [hform, ht]
  | none =>
    refine ⟨data, ?_, Or.inr ⟨rfl, tryEncodings_eq_none denv data encodings ht⟩⟩
    rw [hform, ht]

/-- C6 witness: on the invalid byte `0xFF` with decoders that all fail,
the resolver still succeeds, returning the bytes unchanged. -/
theorem detect_auto_fallback_witness :
    utf8Valid [255] = false ∧
      ∃ r, detectAndConvertEncoding (fun _ _ => none) [255] "" = Except.ok r ∧
        ((∃ i e, encodings.get? i = some e ∧
            (fun (_ : GoEncoding) (_ : List Nat) => (none : Option (List Nat))) e [255] = some r ∧
            utf8Valid r = true ∧
            ∀ j e2, j < i → encodings.get? j = some e2 →
              ∀ s, (fun (_ : GoEncoding) (_ : List Nat) => (none : Option (List Nat))) e2 [255] =
                  some s → utf8Valid s = false) ∨
          (r = [255] ∧ ∀ j e, encodings.get? j = some e →
            ∀ s, (fun (_ : GoEncoding) (_ : List Nat) => (none : Option (List Nat))) e [255] =
                some s → utf8Valid s = false)) :=
  ⟨by decide, detect_auto_fallback (fun _ _ => none) [255] (by decide)⟩

/-- C9: when traversal succeeds but the map is empty, `main` aborts with
the fatal no-valid-files message on stderr and exit status 1, and no
prompt is printed. -/
theorem main_empty_map_fatal (cfg : Config) (denv : DecEnv) (absInputPath : String)
    (root : FSEntry) (instructions : String)
    (h : collectFilesContent cfg denv absInputPath root = []) :
    mainAfterCollect (goStringMap (collectFilesContent cfg denv absInputPath root))
        instructions = RunOutcome.fatal "エラー: 有効なファイルが見つかりませんでした" 1 ∧
      ∀ s, mainAfterCollect (goStringMap (collectFilesContent cfg denv absInputPath root))
          instructions ≠ RunOutcome.printed s := by
  have h1 : mainAfterCollect (goStringMap (collectFilesContent cfg denv absInputPath root))
      instructions = RunOutcome.fatal "エラー: 有効なファイルが見つかりませんでした" 1 := by
    rw [h]
    rfl
  refine ⟨h1, ?_⟩
  intro s hcontra
  rw [h1] at hcontra
  exact RunOutcome.noConfusion hcontra

/-- C9 witness: an empty root directory yields an empty map and the
fatal outcome. -/
theorem main_empty_map_fatal_witness :
    collectFilesContent ⟨[".py"], none, ""⟩ (fun _ _ => none) "/r" (FSEntry.dir "r" []) = [] ∧
      mainAfterCollect (goStringMap
          (collectFilesContent ⟨[".py"], none, ""⟩ (fun _ _ => none) "/r" (FSEntry.dir "r" [])))
          "instr" = RunOutcome.fatal "エラー: 有効なファイルが見つかりませんでした" 1 :=
  ⟨by decide,
    (main_empty_map_fatal ⟨[".py"], none, ""⟩ (fun _ _ => none) "/r" (FSEntry.dir "r" [])
      "instr" (by decide)).1⟩

/-- C10: a hidden root directory trips the hidden-entry rule on the very
first visited entry, so the whole tree is skipped, the map is empty, and
the run aborts with the no-valid-files fatal error even when matching
files are underneath. -/
theorem hidden_root_empty (cfg : Config) (denv : DecEnv) (absInputPath : String)
    (rootName : String) (children : List FSEntry) (instructions : String)
    (h : strHasPre rootName "." = true) :
    collectFilesContent cfg denv absInputPath (FSEntry.dir rootName children) = [] ∧
      mainAfterCollect (goStringMap
          (collectFilesContent cfg denv absInputPath (FSEntry.dir rootName children)))
          instructions = RunOutcome.fatal "エラー: 有効なファイルが見つかりませんでした" 1 := by
  have h1 : collectFilesContent cfg denv absInputPath (FSEntry.dir rootName children) = [] := by
    simp [collectFilesContent, collectEntry, h]
  refine ⟨h1, ?_⟩
  rw [h1]
  rfl

/-- C10 witness: a hidden root holding a matching `.py` file still
produces the empty map and the fatal outcome. -/
theorem hidden_root_empty_witness :
    strHasPre ".proj" "." = true ∧
      collectFilesContent ⟨[".py"], none, ""⟩ (fun _ _ => none) "/h/.proj"
          (FSEntry.dir ".proj" [FSEntry.file "a.py" [97]]) = [] ∧
      mainAfterCollect (goStringMap
          (collectFilesContent ⟨[".py"], none, ""⟩ (fun _ _ => none) "/h/.proj"
            (FSEntry.dir ".proj" [FSEntry.file "a.py" [97]])))
          "i" = RunOutcome.fatal "エラー: 有効なファイルが見つかりませんでした" 1 :=
  ⟨by decide,
    hidden_root_empty ⟨[".py"], none, ""⟩ (fun _ _ => none) "/h/.proj" ".proj"
      [FSEntry.file "a.py" [97]] "i" (by decide)⟩

/-- C5: extension filtering — if the set contains the sentinel `.`, every
path passes the filter; without the sentinel, every key the walk stores
has its extension in the set. -/
theorem extension_filter_spec :
    (∀ (exts : List String) (path : String), exts.contains "." = true →
      extAllowed exts path = true) ∧
    (∀ (cfg : Config) (denv : DecEnv) (absInputPath : String) (root : FSEntry)
      (key : String) (content : List Nat),
      (key, content) ∈ collectFilesContent cfg denv absInputPath root →
      cfg.targetExtensions.contains "." = false →
      cfg.targetExtensions.contains (goExt key) = true) := by
  constructor
  · intro exts path hs
    rw [extAllowed, if_pos hs]
  · intro cfg denv absInputPath root key content hmem hno
    obtain ⟨n, d, fsegs, anc, hfa, hhid, hmat, hext, hdec, hanc⟩ :=
      collectFilesContent_spec cfg denv absInputPath root key content hmem
    have hns : ¬(cfg.targetExtensions.contains "." = true) := by
      rw [hno]
      exact Bool.false_ne_true
    rw [extAllowed, if_neg hns] at hext
    exact hext

/-- C5 witness: the sentinel lets an extensionless path through, and a stored
`.py` key has its extension in the configured set. -/
theorem extension_filter_spec_witness :
    extAllowed ["."] "/r/noext" = true ∧ [".py"].contains (goExt "/r/a.py") = true :=
  ⟨extension_filter_spec.1 ["."] "/r/noext" (by decide),
    extension_filter_spec.2 ⟨[".py"], none, ""⟩ (fun _ _ => none) "/r"
      (FSEntry.dir "r" [FSEntry.file "a.py" [97]]) "/r/a.py" [97] (by decide) (by decide)⟩

/-- C3: a hidden directory prunes its entire subtree — walking it
contributes nothing to the map, whatever the extension set — and every
stored key is reached exclusively through non-hidden directories. -/
theorem hidden_dir_prunes (cfg : Config) (denv : DecEnv) (dn : String)
    (children : List FSEntry) (path : String) (segs : List String)
    (h : strHasPre dn "." = true) :
    collectEntry cfg denv (FSEntry.dir dn children) path segs = [] ∧
    (∀ (absInputPath : String) (root : FSEntry) (key : String) (content : List Nat),
      (key, content) ∈ collectFilesContent cfg denv absInputPath root →
      ∃ n d fsegs anc, FileAt root absInputPath [] n d key fsegs anc ∧
        ∀ a ∈ anc, strHasPre a.1 "." = false) := by
  constructor
  · simp [collectEntry, h]
  · intro absInputPath root key content hmem
    obtain ⟨n, d, fsegs, anc, hfa, hhid, hmat, hext, hdec, hanc⟩ :=
      collectFilesContent_spec cfg denv absInputPath root key content hmem
    exact ⟨n, d, fsegs, anc, hfa, fun a ha => (hanc a ha).1⟩

/-- C3 witness: walking a hidden `.git` directory that holds a matching
file contributes nothing. -/
theorem hidden_dir_prunes_witness :
    strHasPre ".git" "." = true ∧
      collectEntry ⟨["."], none, ""⟩ (fun _ _ => none)
        (FSEntry.dir ".git" [FSEntry.file "a.py" [97]]) "/r/.git" [".git"] = [] :=
  ⟨by decide,
    (hidden_dir_prunes ⟨["."], none, ""⟩ (fun _ _ => none) ".git"
      [FSEntry.file "a.py" [97]] "/r/.git" [".git"] (by decide)).1⟩

/-- C4: a matcher-excluded directory short-circuits descent — walking it
contributes nothing to the map — and every stored key is reached
exclusively through directories the matcher does not exclude. -/
theorem excluded_dir_prunes (cfg : Config) (denv : DecEnv) (dn : String)
    (children : List FSEntry) (path : String) (segs : List String)
    (h : matcherMatch cfg.matcher (relSegs segs) true = true) :
    collectEntry cfg denv (FSEntry.dir dn children) path segs = [] ∧
    (∀ (absInputPath : String) (root : FSEntry) (key : String) (content : List Nat),
      (key, content) ∈ collectFilesContent cfg denv absInputPath root →
      ∃ n d fsegs anc, FileAt root absInputPath [] n d key fsegs anc ∧
        ∀ a ∈ anc, matcherMatch cfg.matcher (relSegs a.2) true = false) := by
  constructor
  · simp [collectEntry, h]
  · intro absInputPath root key content hmem
    obtain ⟨n, d, fsegs, anc, hfa, hhid, hmat, hext, hdec, hanc⟩ :=
      collectFilesContent_spec cfg denv absInputPath root key content hmem
    exact ⟨n, d, fsegs, anc, hfa, fun a ha => (hanc a ha).2⟩

/-- C4 witness: with a matcher excluding `build`, walking the `build`
directory that holds a matching file contributes nothing. -/
theorem excluded_dir_prunes_witness :
    matcherMatch (some (fun segs _ => segs.contains "build")) (relSegs ["build"]) true = true ∧
      collectEntry ⟨[".py"], some (fun segs _ => segs.contains "build"), ""⟩ (fun _ _ => none)
        (FSEntry.dir "build" [FSEntry.file "out.py" [97]]) "/r/build" ["build"] = [] :=
  ⟨by decide,
    (excluded_dir_prunes ⟨[".py"], some (fun segs _ => segs.contains "build"), ""⟩
      (fun _ _ => none) "build" [FSEntry.file "out.py" [97]] "/r/build" ["build"]
      (by decide)).1⟩

/-- C2 counterexample: with the sentinel extension set, the walk stores
the ignore file `.gitignore` itself, whose name does start with `.` — so
not every key of the map denotes a non-hidden file. -/
theorem collect_hidden_gitignore_key :
    ("/r/.gitignore", [97]) ∈
        collectFilesContent ⟨["."], none, ""⟩ (fun _ _ => none) "/r"
          (FSEntry.dir "r" [FSEntry.file ".gitignore" [97]]) ∧
      strHasPre ".gitignore" "." = true := by decide

/-- C2 (amended): every key of the map denotes a regular file of the tree
that is not hidden unless it is the ignore file `.gitignore`, that the
ignore matcher does not exclude, that passes the extension filter, and
whose bytes were successfully decoded; a file whose decoding fails is
dropped and never stored (and every directory on the way to a stored file
is itself non-hidden and not excluded). -/
theorem collect_map_invariant (cfg : Config) (denv : DecEnv) (absInputPath : String)
    (root : FSEntry) (key : String) (content : List Nat)
    (h : (key, content) ∈ collectFilesContent cfg denv absInputPath root) :
    ∃ n d fsegs anc, FileAt root absInputPath [] n d key fsegs anc ∧
      (strHasPre n "." = true → n = ".gitignore") ∧
      matcherMatch cfg.matcher (relSegs fsegs) false = false ∧
      extAllowed cfg.targetExtensions key = true ∧
      detectAndConvertEncoding denv d cfg.encodingName = Except.ok content ∧
      (∀ a ∈ anc, strHasPre a.1 "." = false ∧
        matcherMatch cfg.matcher (relSegs a.2) true = false) :=
  collectFilesContent_spec cfg denv absInputPath root key content h

/-- C2 witness: the stored key `/r/a.py` satisfies the amended
invariant. -/
theorem collect_map_invariant_witness :
    (("/r/a.py", [97]) ∈ collectFilesContent ⟨[".py"], none, ""⟩ (fun _ _ => none) "/r"
        (FSEntry.dir "r" [FSEntry.file "a.py" [97]])) ∧
      ∃ n d fsegs anc,
        FileAt (FSEntry.dir "r" [FSEntry.file "a.py" [97]]) "/r" [] n d "/r/a.py" fsegs anc ∧
        (strHasPre n "." = true → n = ".gitignore") ∧
        matcherMatch none (relSegs fsegs) false = false ∧
        extAllowed [".py"] "/r/a.py" = true ∧
        detectAndConvertEncoding (fun _ _ => none) d "" = Except.ok [97] ∧
        (∀ a ∈ anc, strHasPre a.1 "." = false ∧
          matcherMatch none (relSegs a.2) true = false) :=
  ⟨by decide,
    collect_map_invariant ⟨[".py"], none, ""⟩ (fun _ _ => none) "/r"
      (FSEntry.dir "r" [FSEntry.file "a.py" [97]]) "/r/a.py" [97] (by decide)⟩

/-- C1 counterexample: `createPrompt` over the same two-entry map in its
two possible iteration orders produces two different strings, so the
output — in particular the order of the per-file fenced blocks — is not
determined by the map and the instructions alone. -/
theorem createPrompt_order_sensitive :
    ([("a", "x"), ("b", "y")] : List (String × String)).Perm [("b", "y"), ("a", "x")] ∧
      createPrompt [("a", "x"), ("b", "y")] "i" ≠ createPrompt [("b", "y"), ("a", "x")] "i" := by
  constructor
  · exact List.Perm.swap ("b", "y") ("a", "x") []
  · decide

/-- C1 (amended): for a fixed iteration order the assembler is a pure
function of its inputs; across the possible iteration orders of one map
the per-file fenced blocks are the same up to order, and for maps with at
most one entry the whole output string is identical — but with two or
more entries the block order follows the unspecified Go map iteration
order. -/
theorem createPrompt_deterministic_up_to_order (l1 l2 : List (String × String))
    (instructions : String) (h : l1.Perm l2) :
    (l1.map promptFileBlock).Perm (l2.map promptFileBlock) ∧
      (l1.length ≤ 1 → createPrompt l1 instructions = createPrompt l2 instructions) := by
  refine ⟨h.map promptFileBlock, ?_⟩
  intro hlen
  have heq : l1 = l2 := by
    cases l1 with
    | nil => exact (h.nil_eq).symm ▸ rfl
    | cons a t =>
      cases t with
      | cons b t2 => simp at hlen
      | nil =>
        have hl2 : l2.length = 1 := by
          have := h.length_eq
          simpa using this.symm
        cases l2 with
        | nil => simp at hl2
        | cons b t2 =>
          cases t2 with
          | cons c t3 => simp at hl2
          | nil =>
            have hab : a = b := by
              have hmem : a ∈ [b] := h.mem_iff.mp (by simp)
              simpa using hmem
            rw [hab]
  rw [heq]

/-- C1 witness: a singleton map gives the same output in its only
iteration order. -/
theorem createPrompt_deterministic_up_to_order_witness :
    ([("a", "x")] : List (String × String)).Perm [("a", "x")] ∧
      (([("a", "x")] : List (String × String)).map promptFileBlock).Perm
        ([("a", "x")].map promptFileBlock) ∧
      (([("a", "x")] : List (String × String)).length ≤ 1 →
        createPrompt [("a", "x")] "i" = createPrompt [("a", "x")] "i") :=
  ⟨List.Perm.refl _,
    createPrompt_deterministic_up_to_order [("a", "x")] [("a", "x")] "i" (List.Perm.refl _)⟩
